import Mathlib

/-!
Verification of the REDItools3 streaming positional analysis core.

The development shallowly embeds the Python sources under `reditools/`:
`utils.py` (position-list handling and predicate-list evaluation),
`rtchecks.py` (the quality-control filter chain), and `reditools.py`
(the engine configuration, result records, and the scan loop).

Python run-time failures (AttributeError, TypeError, ZeroDivisionError,
ValueError, unbounded recursion) are made explicit: fallible code returns
`Except Unit` or `Option`, and attribute lookups on names that no object
of the relevant class ever defines are resolved against a transcription of
the attribute set actually assigned in the source.

The modules `reditools/compiled_reads.py`, `reditools/fasta_file.py` and
`reditools/logger.py` are imported by `reditools.py` but are not present in
the sources; the data they provide (the per-position base aggregate and the
read-window accumulator) is modelled from the specification, as noted on
each such definition.
-/

/-! ## Position maps (`utils.enumerate_positions`)

`enumerate_positions` builds a `defaultdict(SortedSet)`: a mapping from
contig name to a set of 0-based integer positions.  We model the mapping
as an association list in key-insertion order (the iteration order of a
Python dict), with sets of positions as `Finset ℤ`. -/

/-- A contig-to-position-set mapping, in key insertion order. -/
abbrev PosMap := List (String × Finset ℤ)

/-- Lookup with the `dict.get(key, [])` default: the empty set for an
absent contig. -/
def pmGet (m : PosMap) (key : String) : Finset ℤ :=
  match m.find? (fun kv => decide (kv.1 = key)) with
  | some kv => kv.2
  | none => ∅

/-- `positions[contig] |= s` on a `defaultdict`: union into the existing
entry, or append a fresh entry (a fresh key starts at the empty set, so the
first union is just `s`). -/
def pmAdd (m : PosMap) (key : String) (s : Finset ℤ) : PosMap :=
  match m with
  | [] => [(key, s)]
  | kv :: t => if kv.1 = key then (kv.1, kv.2 ∪ s) :: t else kv :: pmAdd t key s

/-- A region record `(contig, start[, end])`: 1-based start, optional end.
Trailing extra values in the source records are ignored by the code and are
omitted from the model. -/
abbrev RegionRec := String × ℤ × Option ℤ

/-- `utils.enumerate_positions`: for each record, `start = reg[1] - 1`,
`end = start + 1` when no end is given else `reg[2]`, and the contig's set
is unioned with `range(start, end)`. -/
def enumeratePositions (regions : List RegionRec) : PosMap :=
  regions.foldl
    (fun acc reg =>
      let start := reg.2.1 - 1
      let stop := match reg.2.2 with
        | none => start + 1
        | some e => e
      pmAdd acc reg.1 (Finset.Ico start stop))
    []

/-- C7 (counterexample): the claim describes the enumerated set for
`("chr1", 5, 10)` as covering the half-open interval `[start-1, end-1)`,
which is `Finset.Ico 4 9`; the code instead produces `range(4, 10)`. -/
theorem enumerate_positions_interval_counterexample :
    pmGet (enumeratePositions [("chr1", 5, some 10)]) "chr1" ≠ Finset.Ico (4 : ℤ) (10 - 1) ∧
    (9 : ℤ) ∈ pmGet (enumeratePositions [("chr1", 5, some 10)]) "chr1" := by
  constructor
  · decide
  · decide

/-- C7 (amended): `enumerate_positions` maps a record with an end to the
0-based half-open interval `[start-1, end)` (1-based inclusive end equals
0-based exclusive end), and a record without an end to the single position
`start-1`; in particular the two spec examples hold. -/
theorem enumerate_positions_halfopen :
    (∀ (c : String) (s e : ℤ),
      pmGet (enumeratePositions [(c, s, some e)]) c = Finset.Ico (s - 1) e) ∧
    (∀ (c : String) (s : ℤ),
      pmGet (enumeratePositions [(c, s, none)]) c = Finset.Ico (s - 1) s) ∧
    pmGet (enumeratePositions [("chr1", 5, none)]) "chr1" = ({4} : Finset ℤ) ∧
    pmGet (enumeratePositions [("chr1", 5, some 10)]) "chr1" =
      ({4, 5, 6, 7, 8, 9} : Finset ℤ) := by
  refine ⟨?_, ?_, by decide, by decide⟩
  · intro c s e
    simp [enumeratePositions, pmAdd, pmGet, List.find?]
  · intro c s
    simp [enumeratePositions, pmAdd, pmGet, List.find?]

/-! ## The per-position base aggregate (`CompiledPosition`)

Modelled from the spec: the module `reditools/compiled_reads.py` that
defines `CompiledPosition` is not under the provided sources.  Per the
spec's data model, a `CompiledPosition` holds, for exactly one genomic
position, the retained reads' base calls with their qualities and strand
orientations, plus the reference base (from a configured reference
sequence, or inferred as the most frequent observed base).  Per-nucleotide
counts, the `REF` counter, variants, quality summaries and strand
consensus are all derived from that data. -/

/-- One retained read's contribution at a position: called base, base
quality, strand orientation. -/
abbrev ReadBase := Char × ℕ × Char

/-- Modelled from the spec: the aggregate state for one genomic position
(`CompiledPosition` from the absent `compiled_reads` module). -/
structure CompiledPos where
  reads : List ReadBase
  refSource : Option Char
deriving DecidableEq

/-- Fixed enumeration order of nucleotide symbols. -/
def nucleotideOrder : List Char := ['A', 'C', 'G', 'T']

/-- `len(bases)`: the number of retained reads (the position's depth). -/
def CompiledPos.len (p : CompiledPos) : ℕ := p.reads.length

/-- `bases.qualities`: per-read base qualities at the position. -/
def CompiledPos.qualities (p : CompiledPos) : List ℕ :=
  p.reads.map (fun rb => rb.2.1)

/-- `bases[base]` for a nucleotide symbol: how many retained reads called
that base. -/
def CompiledPos.countBase (p : CompiledPos) (b : Char) : ℕ :=
  (p.reads.filter (fun rb => decide (rb.1 = b))).length

/-- `bases.ref`: reference base from the configured reference when
present, else the most frequent observed base. -/
def CompiledPos.ref (p : CompiledPos) : Char :=
  match p.refSource with
  | some c => c
  | none =>
      nucleotideOrder.foldl
        (fun best b => if p.countBase best < p.countBase b then b else best) 'N'

/-- `bases['REF']`: reads matching the reference base (counted once per
read, never double-counted with the nucleotide counters). -/
def CompiledPos.refCount (p : CompiledPos) : ℕ := p.countBase p.ref

/-- `bases.get_variants()`: non-reference nucleotide symbols with at least
one observed read, in the fixed enumeration order. -/
def CompiledPos.get_variants (p : CompiledPos) : List Char :=
  nucleotideOrder.filter (fun b => decide (b ≠ p.ref) && decide (0 < p.countBase b))

/-- `bases.getmin_edits()`: the per-nucleotide edit counts of the
non-reference nucleotides. -/
def CompiledPos.getminEdits (p : CompiledPos) : List ℕ :=
  (nucleotideOrder.filter (fun b => decide (b ≠ p.ref))).map p.countBase

/-- `bases.get_strand(threshold)`: consensus strand of the retained reads
at the configured confidence threshold; `*` when unresolved. -/
def CompiledPos.getStrand (p : CompiledPos) (threshold : ℚ) : Char :=
  let plus := (p.reads.filter (fun rb => decide (rb.2.2 = '+'))).length
  let minus := (p.reads.filter (fun rb => decide (rb.2.2 = '-'))).length
  let total := plus + minus
  if total = 0 then '*'
  else if threshold < (plus : ℚ) / (total : ℚ) then '+'
  else if threshold < (minus : ℚ) / (total : ℚ) then '-'
  else '*'

/-- Complement of a nucleotide symbol. -/
def complementBase (b : Char) : Char :=
  if b = 'A' then 'T' else if b = 'T' then 'A'
  else if b = 'C' then 'G' else if b = 'G' then 'C' else b

/-- `bases.complement()`: reinterpret the aggregate on the opposite
strand. -/
def CompiledPos.complement (p : CompiledPos) : CompiledPos :=
  { reads := p.reads.map (fun rb => (complementBase rb.1, rb.2)),
    refSource := p.refSource.map complementBase }

/-- `bases.filter_bystrand(strand)`: drop reads disagreeing with the
resolved strand. -/
def CompiledPos.filterByStrand (p : CompiledPos) (s : Char) : CompiledPos :=
  { p with reads := p.reads.filter (fun rb => decide (rb.2.2 = s)) }

/-- The aggregate of a position no retained read covers. -/
def emptyCompiled : CompiledPos := { reads := [], refSource := none }

/-! ## Engine configuration (`REDItools.__init__`) -/

/-- The quality-control predicates `rtchecks.py` defines; the filter chain
is a set of these. -/
inductive Check
  | splicePositions
  | polyPositions
  | columnMinLength
  | columnQuality
  | columnEditFrequency
  | columnMinEdits
deriving DecidableEq

/-- Engine state: the configuration fields of `REDItools` that the core
algorithms read.  `chain` is the `RTChecks.check_list` set held by
`_rtqc`; `splice_positions`/`poly_positions` are `none` while the backing
field still holds its initial empty list (on which `.get` is an invalid
attribute access) and `some m` once a position map has been stored;
`target_positions` is `none` while the field holds `False`. -/
structure Engine where
  strand : ℤ
  usestrand_correction : Bool
  strand_confidence_threshold : ℚ
  min_base_quality : ℕ
  min_base_position : ℤ
  max_base_position : Option ℤ
  min_read_length : ℕ
  min_read_quality : ℚ
  min_column_length : ℤ
  min_edits : ℤ
  min_edits_per_nucleotide : ℤ
  chain : List Check
  target_positions : Option PosMap
  exclude_positions : PosMap
  splice_positions : Option PosMap
  poly_positions : Option PosMap
  reference : Option (String → ℤ → Char)

/-- The state `REDItools.__init__` builds (defaults per the source:
`min_column_length = 1`, `min_edits = 0`, `min_edits_per_nucleotide = 0`,
`strand = 0`, no strand correction, confidence 0.5, base quality 30, base
positions 0..inf, read length 30, read quality 0, empty filter chain, no
target/exclude/splice/poly positions, no reference). -/
def defaultEngine : Engine :=
  { strand := 0
    usestrand_correction := false
    strand_confidence_threshold := 1 / 2
    min_base_quality := 30
    min_base_position := 0
    max_base_position := none
    min_read_length := 30
    min_read_quality := 0
    min_column_length := 1
    min_edits := 0
    min_edits_per_nucleotide := 0
    chain := []
    target_positions := none
    exclude_positions := []
    splice_positions := none
    poly_positions := none
    reference := none }

/-- Attribute names a `REDItools` object carries: the instance attributes
assigned in `REDItools.__init__` (including those set through the
`log_level` property) together with the class-level properties and
methods.  Accessing any other name raises `AttributeError`. -/
def engineAttrNames : List String :=
  ["hostname_string", "_min_column_length", "_min_edits",
   "_min_edits_per_nucleotide", "_log_level", "_logger", "log", "strand",
   "usestrand_correction", "strand_confidence_threshold",
   "min_base_quality", "min_base_position", "max_base_position", "_rtqc",
   "min_read_length", "_min_read_quality", "_target_positions",
   "_exclude_positions", "_splice_positions", "_poly_positions",
   "reference", "poly_positions", "splice_positions", "target_positions",
   "exclude_positions", "log_level", "min_read_quality",
   "min_column_length", "min_edits", "min_edits_per_nucleotide",
   "analyze", "use_strand_correction", "add_reference", "_get_column"]

/-- Whether a `REDItools` object has an attribute of the given name. -/
def engineHasAttr (name : String) : Bool := engineAttrNames.contains name

/-- Attribute names an `RTChecks` object carries: the `check_list` set
assigned in its `__init__` plus its methods.  Accessing any other name
(such as `_log`) raises `AttributeError`. -/
def rtchecksAttrNames : List String :=
  ["check_list", "add", "discard", "check", "check_splice_positions",
   "check_poly_positions", "check_column_min_length",
   "check_column_quality", "check_column_edit_frequency",
   "check_column_min_edits"]

/-- Whether an `RTChecks` object has an attribute of the given name. -/
def rtchecksHasAttr (name : String) : Bool := rtchecksAttrNames.contains name

/-! ## Filter predicates (`rtchecks.py`)

Each predicate method has the Python signature
`(self, rtools, bases, contig, position)`.  Run-time failures inside a
predicate are `Except.error ()`. -/

/-- `RTChecks.check_splice_positions`: the source indexes
`rtools.splice_positions.get('contig', [])` with the string literal
`'contig'`, not the `contig` argument.  While `splice_positions` still
holds its initial empty list, `.get` is an invalid attribute access. -/
def check_splice_positions (rtools : Engine) (bases : CompiledPos)
    (contig : String) (position : ℤ) : Except Unit Bool :=
  match rtools.splice_positions with
  | none => Except.error ()
  | some m =>
      if position ∈ pmGet m "contig" then Except.ok false else Except.ok true

/-- `RTChecks.check_poly_positions`: the source reads
`rtools.omopolymeric_positions`, a name no `REDItools` object defines (the
backing field is `poly_positions`), so the lookup raises
`AttributeError`.  The live branch is guarded by the transcribed attribute
list; the dead branch carries the lookup the surrounding code intends. -/
def check_poly_positions (rtools : Engine) (bases : CompiledPos)
    (contig : String) (position : ℤ) : Except Unit Bool :=
  if engineHasAttr "omopolymeric_positions" then
    match rtools.poly_positions with
    | none => Except.error ()
    | some m =>
        if position ∈ pmGet m contig then Except.ok false else Except.ok true
  else Except.error ()

/-- `RTChecks.check_column_min_length`: read-depth check.  Its failure
branch calls `self._log`, a name no `RTChecks` object defines, so a column
below the depth threshold raises `AttributeError` instead of returning
`False`. -/
def check_column_min_length (rtools : Engine) (bases : CompiledPos)
    (contig : String) (position : ℤ) : Except Unit Bool :=
  if (bases.len : ℤ) < rtools.min_column_length then
    if rtchecksHasAttr "_log" then Except.ok false else Except.error ()
  else Except.ok true

/-- `RTChecks.check_column_quality`: mean-quality check (mean 0 on an
empty column).  Its failure branch also calls the undefined `self._log`. -/
def check_column_quality (rtools : Engine) (bases : CompiledPos)
    (contig : String) (position : ℤ) : Except Unit Bool :=
  let mean_q : ℚ :=
    if bases.len ≠ 0 then (bases.qualities.sum : ℚ) / (bases.len : ℚ) else 0
  if mean_q < rtools.min_read_quality then
    if rtchecksHasAttr "_log" then Except.ok false else Except.error ()
  else Except.ok true

/-- `RTChecks.check_column_edit_frequency`: total edit count
`len(bases) - bases['REF']` against `min_edits`. -/
def check_column_edit_frequency (rtools : Engine) (bases : CompiledPos)
    (contig : String) (position : ℤ) : Except Unit Bool :=
  let edits_no : ℤ := (bases.len : ℤ) - (bases.refCount : ℤ)
  if edits_no < rtools.min_edits then Except.ok false else Except.ok true

/-- `RTChecks.check_column_min_edits`: every nucleotide with at least one
edit must reach `min_edits_per_nucleotide`. -/
def check_column_min_edits (rtools : Engine) (bases : CompiledPos)
    (contig : String) (position : ℤ) : Except Unit Bool :=
  Except.ok (bases.getminEdits.all
    (fun n => !(decide ((0 : ℤ) < (n : ℤ)) && decide ((n : ℤ) < rtools.min_edits_per_nucleotide))))

/-- Dispatch from a chain member to the predicate it names, applied to the
full argument set. -/
def runCheck (c : Check) (rtools : Engine) (bases : CompiledPos)
    (contig : String) (position : ℤ) : Except Unit Bool :=
  match c with
  | Check.splicePositions => check_splice_positions rtools bases contig position
  | Check.polyPositions => check_poly_positions rtools bases contig position
  | Check.columnMinLength => check_column_min_length rtools bases contig position
  | Check.columnQuality => check_column_quality rtools bases contig position
  | Check.columnEditFrequency => check_column_edit_frequency rtools bases contig position
  | Check.columnMinEdits => check_column_min_edits rtools bases contig position

/-- The keyword arguments forwarded by `utils.check_list(**kwargs)`: each
predicate parameter is either supplied or absent. -/
structure CheckKwargs where
  rtools : Option Engine
  bases : Option CompiledPos
  contig : Option String
  position : Option ℤ

/-- Calling a chain member with keyword arguments.  Every predicate
requires all four parameters `rtools, bases, contig, position`; a call
missing any of them raises `TypeError` before the body runs. -/
def invokeCheck (c : Check) (k : CheckKwargs) : Except Unit Bool :=
  match k.rtools, k.bases, k.contig, k.position with
  | some r, some b, some ctg, some p => runCheck c r b ctg p
  | _, _, _, _ => Except.error ()

/-- `utils.check_list`: run each function with the provided keyword
arguments, returning `False` at the first function returning `False`;
`True` when none does.  An exception from a call propagates. -/
def checkListRun (functions : List Check) (k : CheckKwargs) : Except Unit Bool :=
  match functions with
  | [] => Except.ok true
  | c :: rest =>
      match invokeCheck c k with
      | Except.error e => Except.error e
      | Except.ok false => Except.ok false
      | Except.ok true => checkListRun rest k

/-- `RTChecks.check(rtools, bases, contig, position)`: delegates to
`utils.check_list(self.check_list, bases=bases)` — only `bases` is
forwarded to the member predicates. -/
def RTChecks.check (chain : List Check) (rtools : Engine) (bases : CompiledPos)
    (contig : String) (position : ℤ) : Except Unit Bool :=
  checkListRun chain
    { rtools := none, bases := some bases, contig := none, position := none }

/-- C1: `RTChecks.check` on the empty chain returns `True` for every
input, but on any non-empty chain the first member predicate is called
with only the `bases` keyword argument, so the call raises `TypeError`
(missing `rtools`, `contig`, `position`) instead of evaluating the
short-circuit conjunction over the full argument set. -/
theorem rtchecks_check_forwards_only_bases :
    (∀ (r : Engine) (b : CompiledPos) (c : String) (p : ℤ),
      RTChecks.check [] r b c p = Except.ok true) ∧
    (∀ (chk : Check) (rest : List Check) (r : Engine) (b : CompiledPos)
      (c : String) (p : ℤ),
      RTChecks.check (chk :: rest) r b c p = Except.error ()) := by
  constructor
  · intro r b c p
    rfl
  · intro chk rest r b c p
    rfl

/-- C3: the standard filter predicates are not total.
`check_poly_positions` raises `AttributeError` on every input (it reads
the undefined attribute `omopolymeric_positions`), and
`check_column_min_length` raises `AttributeError` (undefined `self._log`)
on the very inputs it is meant to reject, e.g. a zero-depth column against
a minimum depth of 2. -/
theorem filter_predicates_not_total :
    (∀ (r : Engine) (b : CompiledPos) (c : String) (p : ℤ),
      check_poly_positions r b c p = Except.error ()) ∧
    check_column_min_length { defaultEngine with min_column_length := 2 }
      emptyCompiled "chr1" 0 = Except.error () := by
  constructor
  · intro r b c p
    rfl
  · rfl

/-- An engine whose splice sites were configured from the region list
`[("chr1", 5)]`: the set `{4}` is registered for contig `chr1`, and
`check_splice_positions` sits in the chain. -/
def engineWithSplice : Engine :=
  { defaultEngine with
      splice_positions := some (enumeratePositions [("chr1", 5, none)]),
      chain := [Check.splicePositions] }

/-- C9: with splice set `{4}` registered for contig `chr1`, the splice
predicate called at contig `chr1`, position 4 returns `True` even though
the position is in the splice set for that contig — the source consults
the literal key `'contig'` instead of the `contig` argument, so the claim
"returns False exactly on membership in the contig's splice set" fails. -/
theorem check_splice_positions_literal_contig :
    check_splice_positions engineWithSplice emptyCompiled "chr1" 4 = Except.ok true ∧
    (4 : ℤ) ∈ pmGet (enumeratePositions [("chr1", 5, none)]) "chr1" ∧
    engineWithSplice.splice_positions = some (enumeratePositions [("chr1", 5, none)]) := by
  refine ⟨?_, by decide, rfl⟩
  simp [check_splice_positions, engineWithSplice]
  decide

/-! ## Result records (`RTResult`) -/

/-- `RTResult`: the per-position output view.  The constructor stores the
contig, the 1-based position (`position + 1`), the base aggregate, the
resolved strand, and the detected variants (`bases.get_variants()`). -/
structure RTResult where
  contig : String
  position : ℤ
  bases : CompiledPos
  strand : Char
  variantsRaw : List Char

/-- `RTResult.__init__(bases, strand, contig, position)`. -/
def mkRTResult (bases : CompiledPos) (strand : Char) (contig : String)
    (position : ℤ) : RTResult :=
  { contig := contig
    position := position + 1
    bases := bases
    strand := strand
    variantsRaw := bases.get_variants }

/-- `RTResult.variants`: two-character strings `ref + base`. -/
def RTResult.variants (res : RTResult) : List String :=
  res.variantsRaw.map (fun b => String.mk [res.bases.ref, b])

/-- `RTResult.mean_quality`: `sum(qualities) / len(bases)` when the column
is non-empty (Python truthiness of the aggregate), else 0. -/
def RTResult.mean_quality (res : RTResult) : ℚ :=
  if res.bases.len ≠ 0 then
    (res.bases.qualities.sum : ℚ) / (res.bases.len : ℚ)
  else 0

/-- `RTResult.edit_ratio`: `max_edits / (max_edits + bases['REF'])` with
`max_edits` the largest per-nucleotide count among the detected variants
(0 when there are none).  A zero denominator is Python's
`ZeroDivisionError`, modelled as `none`. -/
def RTResult.edit_ratio (res : RTResult) : Option ℚ :=
  let max_edits : ℕ :=
    match res.variantsRaw with
    | [] => 0
    | vs => (vs.map res.bases.countBase).foldl max 0
  if max_edits + res.bases.refCount = 0 then none
  else some ((max_edits : ℚ) / ((max_edits : ℚ) + (res.bases.refCount : ℚ)))

/-- `RTResult.depth`: retained read count. -/
def RTResult.depth (res : RTResult) : ℕ := res.bases.len

/-- C4: at a position with depth 0 (no retained reads), `mean_quality`
evaluates to 0 as claimed, but `edit_ratio` evaluates `0 / (0 + 0)` and
raises an unhandled `ZeroDivisionError` (`none` in the model) instead of
returning a fixed documented fallback value. -/
theorem depth_zero_mean_quality_and_edit_ratio :
    (mkRTResult emptyCompiled '*' "chr1" 0).mean_quality = 0 ∧
    (mkRTResult emptyCompiled '*' "chr1" 0).edit_ratio = none ∧
    (mkRTResult emptyCompiled '*' "chr1" 0).depth = 0 := by
  refine ⟨rfl, rfl, rfl⟩

/-! ## Threshold and position-set setters (`reditools.py` properties) -/

/-- `RTChecks.add`: set semantics — adding a member already present is a
no-op. -/
def chainAdd (c : Check) (l : List Check) : List Check :=
  if c ∈ l then l else l ++ [c]

/-- `RTChecks.discard`: set semantics — discarding an absent member is a
no-op. -/
def chainDiscard (c : Check) (l : List Check) : List Check :=
  l.filter (fun x => decide (x ≠ c))

/-- `min_read_quality` setter: store the threshold; add
`check_column_quality` when positive, else discard it. -/
def setMinReadQuality (e : Engine) (threshold : ℚ) : Engine :=
  let e1 := { e with min_read_quality := threshold }
  if 0 < threshold then { e1 with chain := chainAdd Check.columnQuality e1.chain }
  else { e1 with chain := chainDiscard Check.columnQuality e1.chain }

/-- `min_column_length` setter: store the threshold; add
`check_column_min_length` when above 1, else discard it. -/
def setMinColumnLength (e : Engine) (threshold : ℤ) : Engine :=
  let e1 := { e with min_column_length := threshold }
  if 1 < threshold then { e1 with chain := chainAdd Check.columnMinLength e1.chain }
  else { e1 with chain := chainDiscard Check.columnMinLength e1.chain }

/-- `min_edits` setter: store the threshold; add
`check_column_edit_frequency` when positive, else discard it. -/
def setMinEdits (e : Engine) (threshold : ℤ) : Engine :=
  let e1 := { e with min_edits := threshold }
  if 0 < threshold then { e1 with chain := chainAdd Check.columnEditFrequency e1.chain }
  else { e1 with chain := chainDiscard Check.columnEditFrequency e1.chain }

/-- `min_edits_per_nucleotide` setter: store the threshold; add
`check_column_min_edits` when positive, else discard it. -/
def setMinEditsPerNucleotide (e : Engine) (threshold : ℤ) : Engine :=
  let e1 := { e with min_edits_per_nucleotide := threshold }
  if 0 < threshold then { e1 with chain := chainAdd Check.columnMinEdits e1.chain }
  else { e1 with chain := chainDiscard Check.columnMinEdits e1.chain }

/-- `splice_positions` setter: on a non-empty region list, store the
enumerated positions and add `check_splice_positions`; otherwise reset the
field to its empty state and discard the predicate. -/
def setSplicePositions (e : Engine) (regions : List RegionRec) : Engine :=
  if regions.isEmpty then
    { e with splice_positions := none, chain := chainDiscard Check.splicePositions e.chain }
  else
    { e with splice_positions := some (enumeratePositions regions),
             chain := chainAdd Check.splicePositions e.chain }

/-- `poly_positions` setter: on a non-empty region list the source stores
the enumerated positions and then calls `self._reqc.add(function)` — but
no `REDItools` object has an attribute `_reqc` (the checker lives in
`_rtqc`), so the add raises `AttributeError`.  The error payload is the
engine as mutated up to the raise: positions stored, chain untouched. -/
def setPolyPositions (e : Engine) (regions : List RegionRec) : Except Engine Engine :=
  if regions.isEmpty then
    Except.ok
      { e with poly_positions := none, chain := chainDiscard Check.polyPositions e.chain }
  else
    let e1 := { e with poly_positions := some (enumeratePositions regions) }
    if engineHasAttr "_reqc" then
      Except.ok { e1 with chain := chainAdd Check.polyPositions e1.chain }
    else Except.error e1

/-- `target_positions` setter: store the enumerated positions, or `False`
on an empty region list. -/
def setTargetPositions (e : Engine) (regions : List RegionRec) : Engine :=
  if regions.isEmpty then { e with target_positions := none }
  else { e with target_positions := some (enumeratePositions regions) }

/-- C2: activating the homopolymeric position set does not add its
predicate — the setter raises `AttributeError` on the misspelled
`self._reqc`, leaving the filter chain unchanged (while the position set
itself has already been stored), so chain membership does not reflect the
active setting. -/
theorem poly_positions_setter_attribute_error (e : Engine)
    (regions : List RegionRec) (h : regions ≠ []) :
    setPolyPositions e regions =
      Except.error { e with poly_positions := some (enumeratePositions regions) } ∧
    ({ e with poly_positions := some (enumeratePositions regions) } : Engine).chain
      = e.chain := by
  refine ⟨?_, rfl⟩
  have hne : regions.isEmpty = false := by
    cases regions with
    | nil => exact absurd rfl h
    | cons a t => rfl
  simp [setPolyPositions, hne, engineHasAttr, engineAttrNames]

/-- C2 (witness): the failing toggle at a concrete input — activating the
homopolymeric set `[("chr1", 1, 4)]` on a fresh engine. -/
theorem poly_positions_setter_attribute_error_witness :
    ([("chr1", 1, some 4)] : List RegionRec) ≠ [] ∧
    (setPolyPositions defaultEngine [("chr1", 1, some 4)] =
      Except.error
        { defaultEngine with
            poly_positions := some (enumeratePositions [("chr1", 1, some 4)]) } ∧
    ({ defaultEngine with
         poly_positions := some (enumeratePositions [("chr1", 1, some 4)]) } : Engine).chain
      = defaultEngine.chain) :=
  ⟨by decide,
   poly_positions_setter_attribute_error defaultEngine [("chr1", 1, some 4)]
     (by decide)⟩

/-! ## The `exclude_positions` property (`reditools.py`)

The setter body is `self.exclude_positions = utils.enumerate_positions(regions)`:
it assigns to the property itself, re-invoking the setter on the freshly
built dict.  `enumerate_positions` applied to a dict iterates its keys
(contig strings), indexes into them, and calls `int()` on single
characters — raising `ValueError` on a non-digit.  The backing field
`_exclude_positions` is never assigned. -/

/-- What the setter receives: the caller's region list, or (on recursive
invocations) the position map built one level up. -/
inductive ExcSetterArg
  | regions (rs : List RegionRec)
  | posmap (m : PosMap)

/-- `int()` on a one-character string: its value for a digit, `ValueError`
otherwise. -/
def pyIntOfChar (c : Char) : Except Unit ℤ :=
  if c.isDigit then Except.ok ((c.toNat : ℤ) - 48) else Except.error ()

/-- `utils.enumerate_positions` applied to a position map (a dict):
iteration yields the contig-name keys; `reg[0]` is the key's first
character, `int(reg[1]) - 1` the start, and `len(reg) < 3` decides whether
`int(reg[2])` is read.  Indexing past the end of the key raises
`IndexError`; `int()` of a letter raises `ValueError`. -/
def enumerateOnMap (m : PosMap) : Except Unit PosMap :=
  m.foldlM
    (fun acc kv =>
      match kv.1.data with
      | c0 :: c1 :: rest =>
          match pyIntOfChar c1 with
          | Except.error e => Except.error e
          | Except.ok d1 =>
              let start := d1 - 1
              match rest with
              | [] =>
                  Except.ok (pmAdd acc (String.mk [c0]) (Finset.Ico start (start + 1)))
              | c2 :: _ =>
                  match pyIntOfChar c2 with
                  | Except.error e => Except.error e
                  | Except.ok d2 =>
                      Except.ok (pmAdd acc (String.mk [c0]) (Finset.Ico start d2))
      | _ => Except.error ())
    []

/-- One level of `enumerate_positions` on whatever the setter received. -/
def enumerateOnArg : ExcSetterArg → Except Unit PosMap
  | ExcSetterArg.regions rs => Except.ok (enumeratePositions rs)
  | ExcSetterArg.posmap m => enumerateOnMap m

/-- The `exclude_positions` setter: enumerate the argument, then assign
the result to the property — which re-invokes this setter on the result.
`fuel` bounds the recursion depth; `none` is non-termination (Python's
`RecursionError`), `some (Except.error ())` a raised exception.  There is
no assignment to `_exclude_positions` on any path, hence no success
constructor of type `Engine`. -/
def setExcludePositions : ℕ → ExcSetterArg → Option (Except Unit PosMap)
  | 0, _ => none
  | fuel + 1, arg =>
      match enumerateOnArg arg with
      | Except.error e => some (Except.error e)
      | Except.ok m => setExcludePositions fuel (ExcSetterArg.posmap m)

/-- C5: configuring exclude positions from the region list
`[("chr1", 5)]` never stores the set — the setter either exhausts any
recursion depth or raises (`int('h')` on the second level is a
`ValueError`); at depth 2 it concretely raises.  `_exclude_positions`
therefore keeps its initial empty value and the scan's exclusion check
never discards anything. -/
theorem exclude_positions_setter_never_stores :
    (∀ fuel : ℕ,
      setExcludePositions fuel (ExcSetterArg.regions [("chr1", 5, none)]) = none ∨
      setExcludePositions fuel (ExcSetterArg.regions [("chr1", 5, none)]) =
        some (Except.error ())) ∧
    setExcludePositions 2 (ExcSetterArg.regions [("chr1", 5, none)]) =
      some (Except.error ()) := by
  constructor
  · intro fuel
    match fuel with
    | 0 => exact Or.inl rfl
    | 1 => exact Or.inl rfl
    | (n + 2) => exact Or.inr rfl
  · rfl

/-! ## Regions and the scan loop (`REDItools.analyze`)

`analyze(alignment_manager, region=None)` replaces an omitted region by a
plain empty dict `{}` and then reads `region.stop`, `region.start` and
`region.contig` as attributes — valid on a genuine region object, an
`AttributeError` on the dict. -/

/-- A genuine bounding region object: contig plus optional 1-ish bounds
(`start`/`stop` may be `None`). -/
structure Region where
  contig : String
  start : Option ℤ
  stop : Option ℤ

/-- The value held by the `region` variable inside `analyze`: the empty
dict substituted for an omitted argument, or a genuine region. -/
inductive RegionVal
  | dict
  | reg (r : Region)

/-- `region.stop and position >= region.stop`: attribute access fails on
the dict; on a region, `None` and `0` are falsy. -/
def regionStopTest (rv : RegionVal) (position : ℤ) : Except Unit Bool :=
  match rv with
  | RegionVal.dict => Except.error ()
  | RegionVal.reg r =>
      match r.stop with
      | none => Except.ok false
      | some s => Except.ok (decide (s ≠ 0) && decide (s ≤ position))

/-- Modelled from the spec: a single aligned read as the accumulator
consumes it (`reference_start` plus the base call, base quality and strand
at each successive position it covers); the `pysam`-backed read class is
external. -/
structure RTRead where
  reference_start : ℤ
  seq : List ReadBase
deriving DecidableEq

/-- A batch of reads sharing a `reference_start`, as yielded by
`fetch_by_position`. -/
abbrev Batch := List RTRead

/-- Modelled from the spec: the external read source — it exposes ordered
fetch-by-region semantics (the batch stream) and a queryable current
contig/position while idle. -/
structure AlignmentManager where
  contig : String
  batches : List Batch

/-- The start position of a batch (`reads[0].reference_start`). -/
def batchStart : Batch → ℤ
  | [] => 0
  | rd :: _ => rd.reference_start

/-! ### The position window (`CompiledReads`)

Modelled from the spec: the sliding window of open positions owned by the
absent `compiled_reads` module, as a position-keyed association list of
`CompiledPos` aggregates. -/

/-- The accumulator window: genomic position to aggregate, one entry per
open position. -/
abbrev Window := List (ℤ × CompiledPos)

/-- Record one read base into the aggregate at `pos`, creating the entry
(with the configured reference base, if any) when the position is newly
touched. -/
def windowUpdate (w : Window) (pos : ℤ) (rb : ReadBase) (refc : Option Char) : Window :=
  match w with
  | [] => [(pos, { reads := [rb], refSource := refc })]
  | (k, cp) :: t =>
      if k = pos then (k, { cp with reads := cp.reads ++ [rb] }) :: t
      else (k, cp) :: windowUpdate t pos rb refc

/-- Ingestion-time base filters (`CompiledReads` construction arguments):
base position within `min_base_position .. max_base_position` (unbounded
above by default) and base quality at least `min_base_quality`. -/
def ingestBaseOk (e : Engine) (i : ℕ) (q : ℕ) : Bool :=
  decide (e.min_base_position ≤ (i : ℤ)) &&
  (match e.max_base_position with
   | none => true
   | some m => decide ((i : ℤ) ≤ m)) &&
  decide (e.min_base_quality ≤ q)

/-- Ingest one read: update the aggregate of every position the read
covers with the bases that pass the ingestion filters. -/
def addRead (e : Engine) (ctg : String) (w : Window) (rd : RTRead) : Window :=
  rd.seq.enum.foldl
    (fun acc ib =>
      if ingestBaseOk e ib.1 ib.2.2.1 then
        windowUpdate acc (rd.reference_start + (ib.1 : ℤ)) ib.2
          (e.reference.map (fun f => f ctg (rd.reference_start + (ib.1 : ℤ))))
      else acc)
    w

/-- `nucleotides.add_reads(batch)`: ingest every read of the batch. -/
def addReads (e : Engine) (ctg : String) (w : Window) (b : Batch) : Window :=
  b.foldl (addRead e ctg) w

/-- `nucleotides.pop(position)`: the aggregate at the position (or the
none sentinel when no read covered it) and the window with that position
evicted. -/
def windowPop (w : Window) (pos : ℤ) : Option CompiledPos × Window :=
  ((w.find? (fun kv => decide (kv.1 = pos))).map Prod.snd,
   w.filter (fun kv => decide (kv.1 ≠ pos)))

/-- `REDItools._get_column(position, bases, region)`: resolve the strand,
apply strand correction and complementation, then (once past the region
start) gate through `RTChecks.check`; `None` when the gate rejects, the
result record otherwise.  On the dict standing in for an omitted region,
reading `region.start` raises. -/
def getColumn (e : Engine) (rv : RegionVal) (position : ℤ)
    (bases : CompiledPos) : Except Unit (Option RTResult) :=
  let strand := bases.getStrand e.strand_confidence_threshold
  let bases1 := if e.usestrand_correction then bases.filterByStrand strand else bases
  let bases2 := if strand = '-' then bases1.complement else bases1
  match rv with
  | RegionVal.dict => Except.error ()
  | RegionVal.reg r =>
      if r.start.getD 0 ≤ position + 1 then
        match RTChecks.check e.chain e bases2 r.contig position with
        | Except.error er => Except.error er
        | Except.ok pass =>
            if pass then Except.ok (some (mkRTResult bases2 strand r.contig position))
            else Except.ok none
      else Except.ok (some (mkRTResult bases2 strand r.contig position))

/-- The per-iteration outcome once the position is fixed and the aggregate
evicted: discarded by the exclusion list, by the target allowlist, by the
no-coverage sentinel, or by the filter gate (`Except.ok none`); emitted
(`Except.ok (some col)`); or aborted by a raise (`Except.error`).  The
exclusion check reads the `_exclude_positions` field directly and runs
before any quality filtering. -/
def columnOutcome (e : Engine) (rv : RegionVal) (position : ℤ) (ctg : String)
    (bases : Option CompiledPos) : Except Unit (Option RTResult) :=
  if position ∈ pmGet e.exclude_positions ctg then Except.ok none
  else if (match e.target_positions with
           | some m => !m.isEmpty
           | none => false) &&
          !(decide (position ∈ pmGet (e.target_positions.getD []) ctg)) then
    Except.ok none
  else
    match bases with
    | none => Except.ok none
    | some b => getColumn e rv position b

/-- How the scan loop ends: the terminal state (source exhausted, window
empty, or the region bound reached), exhaustion of the modelling fuel, or
an uncaught exception. -/
inductive ScanExit
  | done
  | fuelOut
  | errored
deriving DecidableEq

/-- Dispatch on the outcome of one iteration: a raise aborts the scan
with the records already emitted by earlier iterations (none from this
point on), a discarded column contributes nothing, and an emitted column
is prepended to the rest of the scan's output. -/
def dispatchOutcome (x : Except Unit (Option RTResult))
    (tail : List RTResult × ScanExit) : List RTResult × ScanExit :=
  match x with
  | Except.error _ => ([], ScanExit.errored)
  | Except.ok none => tail
  | Except.ok (some col) => (col :: tail.1, tail.2)

/-- The `while reads is not None or not nucleotides.is_empty()` loop of
`analyze`.  State: the pending batch (`reads`), the not-yet-fetched rest
of the source, the window, the position pointer (`none` before its first
assignment — advancing an unassigned pointer is Python's
`UnboundLocalError`) and the `contig` variable.  Each iteration: jump the
pointer to the manager position on an empty window or advance it by one;
test the region stop bound; ingest the pending batch when it starts here;
evict the aggregate; and dispatch on the column outcome. -/
def analyzeLoop (e : Engine) (rv : RegionVal) (mgrContig : String) :
    ℕ → Option Batch → List Batch → Window → Option ℤ → String →
    List RTResult × ScanExit
  | 0, _, _, _, _, _ => ([], ScanExit.fuelOut)
  | fuel + 1, pending, rest, w, posOpt, ctg =>
      if pending.isNone && w.isEmpty then ([], ScanExit.done)
      else
        match (if w.isEmpty then
                 match pending with
                 | some (rd :: _) => Except.ok (rd.reference_start, mgrContig)
                 | _ => Except.error ()
               else
                 match posOpt with
                 | some p => Except.ok (p + 1, ctg)
                 | none => Except.error ()) with
        | Except.error _ => ([], ScanExit.errored)
        | Except.ok pc =>
            match regionStopTest rv pc.1 with
            | Except.error _ => ([], ScanExit.errored)
            | Except.ok true => ([], ScanExit.done)
            | Except.ok false =>
                let st :=
                  match pending with
                  | some batch =>
                      if (match batch with
                          | rd :: _ => decide (rd.reference_start = pc.1)
                          | [] => false) then
                        (rest.head?, rest.tail, addReads e pc.2 w batch)
                      else (pending, rest, w)
                  | none => (pending, rest, w)
                let popped := windowPop st.2.2 pc.1
                dispatchOutcome (columnOutcome e rv pc.1 pc.2 popped.1)
                  (analyzeLoop e rv mgrContig fuel st.1 st.2.1 popped.2
                    (some pc.1) pc.2)

/-- `REDItools.analyze(alignment_manager, region)`: substitute the empty
dict for an omitted region, fetch the first batch, start from an empty
window with the position pointer unassigned, and run the scan loop. -/
def analyze (e : Engine) (mgr : AlignmentManager) (regionArg : Option Region)
    (fuel : ℕ) : List RTResult × ScanExit :=
  let rv := match regionArg with
    | none => RegionVal.dict
    | some r => RegionVal.reg r
  analyzeLoop e rv mgr.contig fuel mgr.batches.head? mgr.batches.tail [] none ""

/-! ## The DNA-only engine variant (`REDItoolsDNA`) -/

/-- `REDItoolsDNA.set_strand`: unconditionally raises
`ValueError('Cannot set strand value if DNA is True')` before touching any
state. -/
def REDItoolsDNA.set_strand (e : Engine) (strand : ℤ) : Except String Engine :=
  Except.error "Cannot set strand value if DNA is True"

/-- C10: on the DNA-only engine variant, `set_strand` raises the
configuration error for every engine state and every argument, and no
path returns a (possibly modified) engine state. -/
theorem dna_set_strand_always_raises :
    ∀ (e : Engine) (s : ℤ),
      REDItoolsDNA.set_strand e s =
        Except.error "Cannot set strand value if DNA is True" ∧
      ∀ e1 : Engine, REDItoolsDNA.set_strand e s ≠ Except.ok e1 := by
  intro e s
  exact ⟨rfl, fun e1 h => Except.noConfusion h⟩

/-- A one-read demonstration batch: a single read starting at position 0
covering one base. -/
def demoBatch : Batch := [{ reference_start := 0, seq := [('A', 35, '+')] }]

/-- C8: invoking `analyze` with the bounding region omitted substitutes a
plain dict for it; on a non-empty read source the very first loop
iteration reads `region.stop` off that dict and raises `AttributeError`,
so the scan aborts with no records instead of proceeding over the read
source (only a completely empty source terminates normally, because the
loop body is never entered). -/
theorem analyze_without_region_raises :
    (∀ (e : Engine) (ctg : String) (f : ℕ),
      analyze e { contig := ctg, batches := [demoBatch] } none (f + 1) =
        ([], ScanExit.errored)) ∧
    (∀ (e : Engine) (ctg : String) (f : ℕ),
      analyze e { contig := ctg, batches := [] } none (f + 1) =
        ([], ScanExit.done)) := by
  constructor
  · intro e ctg f
    rfl
  · intro e ctg f
    rfl

/-! ## Scan-loop invariants (towards the ordering property of `analyze`) -/

/-- The batches not yet ingested: the pending batch followed by the
unfetched rest (nothing, once the source has signalled exhaustion). -/
def pendList : Option Batch → List Batch → List Batch
  | some b, rest => b :: rest
  | none, _ => []

/-- Refetching the head and tail of a batch list reassembles it. -/
theorem pendList_head_tail (l : List Batch) : pendList l.head? l.tail = l := by
  cases l <;> rfl

/-- Keys after `windowUpdate`: the updated position or an existing key. -/
theorem windowUpdate_keys (pos k : ℤ) (rb : ReadBase) (rc : Option Char) :
    ∀ w : Window, k ∈ (windowUpdate w pos rb rc).map Prod.fst →
      k = pos ∨ k ∈ w.map Prod.fst := by
  intro w
  induction w with
  | nil =>
      intro h
      simp [windowUpdate] at h
      exact Or.inl h
  | cons kv t ih =>
      obtain ⟨k0, cp⟩ := kv
      intro h
      by_cases hk : k0 = pos
      · rw [show windowUpdate ((k0, cp) :: t) pos rb rc =
            if k0 = pos then (k0, { cp with reads := cp.reads ++ [rb] }) :: t
            else (k0, cp) :: windowUpdate t pos rb rc from rfl, if_pos hk] at h
        simp only [List.map_cons, List.mem_cons] at h
        rcases h with h | h
        · exact Or.inl (h.trans hk)
        · exact Or.inr (by simp only [List.map_cons, List.mem_cons]; exact Or.inr h)
      · rw [show windowUpdate ((k0, cp) :: t) pos rb rc =
            if k0 = pos then (k0, { cp with reads := cp.reads ++ [rb] }) :: t
            else (k0, cp) :: windowUpdate t pos rb rc from rfl, if_neg hk] at h
        simp only [List.map_cons, List.mem_cons] at h
        rcases h with h | h
        · exact Or.inr (by simp [h])
        · rcases ih h with h1 | h1
          · exact Or.inl h1
          · exact Or.inr (by simp only [List.map_cons, List.mem_cons]; exact Or.inr h1)

/-- Keys after folding one read's bases in: an existing key or a position
at or after the read's start. -/
theorem addRead_keys_aux {e : Engine} {ctg : String} {rd : RTRead} :
    ∀ (l : List (ℕ × ReadBase)) (w : Window) (k : ℤ),
      k ∈ ((l.foldl
        (fun acc ib =>
          if ingestBaseOk e ib.1 ib.2.2.1 then
            windowUpdate acc (rd.reference_start + (ib.1 : ℤ)) ib.2
              (e.reference.map (fun f => f ctg (rd.reference_start + (ib.1 : ℤ))))
          else acc)
        w).map Prod.fst) →
      k ∈ w.map Prod.fst ∨ rd.reference_start ≤ k := by
  intro l
  induction l with
  | nil =>
      intro w k h
      exact Or.inl h
  | cons ib t ih =>
      intro w k h
      simp only [List.foldl_cons] at h
      rcases ih _ k h with h1 | h1
      · by_cases hg : ingestBaseOk e ib.1 ib.2.2.1
        · rw [if_pos hg] at h1
          rcases windowUpdate_keys _ _ _ _ _ h1 with h2 | h2
          · subst h2
            right
            have : (0 : ℤ) ≤ (ib.1 : ℤ) := Int.ofNat_nonneg ib.1
            omega
          · exact Or.inl h2
        · rw [if_neg hg] at h1
          exact Or.inl h1
      · exact Or.inr h1

/-- Keys after `addRead`: an existing key or a position at or after the
read's start. -/
theorem addRead_keys {e : Engine} {ctg : String} {rd : RTRead} {w : Window}
    {k : ℤ} (h : k ∈ (addRead e ctg w rd).map Prod.fst) :
    k ∈ w.map Prod.fst ∨ rd.reference_start ≤ k :=
  addRead_keys_aux rd.seq.enum w k h

/-- Keys after `addReads` on a batch whose reads all start at `s`: an
existing key or a position at or after `s`. -/
theorem addReads_keys {e : Engine} {ctg : String} {s : ℤ} :
    ∀ (b : Batch) (w : Window) (k : ℤ),
      (∀ rd ∈ b, rd.reference_start = s) →
      k ∈ (addReads e ctg w b).map Prod.fst →
      k ∈ w.map Prod.fst ∨ s ≤ k := by
  intro b
  induction b with
  | nil =>
      intro w k _ h
      exact Or.inl h
  | cons rd t ih =>
      intro w k hs h
      simp only [addReads, List.foldl_cons] at h
      rcases ih (addRead e ctg w rd) k
          (fun x hx => hs x (List.mem_cons_of_mem rd hx)) h with h1 | h1
      · rcases addRead_keys h1 with h2 | h2
        · exact Or.inl h2
        · right
          rw [hs rd (List.mem_cons_self rd t)] at h2
          exact h2
      · exact Or.inr h1

/-- Keys after eviction: existing keys other than the evicted position. -/
theorem windowPop_keys {w : Window} {pos k : ℤ}
    (h : k ∈ (windowPop w pos).2.map Prod.fst) :
    k ∈ w.map Prod.fst ∧ k ≠ pos := by
  simp only [windowPop, List.mem_map, List.mem_filter] at h
  obtain ⟨kv, ⟨hmem, hne⟩, hk⟩ := h
  subst hk
  refine ⟨List.mem_map_of_mem Prod.fst hmem, ?_⟩
  simpa using hne

/-- A record produced by `_get_column` at `position` carries the 1-based
position `position + 1`. -/
theorem getColumn_position {e : Engine} {rv : RegionVal} {pos : ℤ}
    {b : CompiledPos} {col : RTResult}
    (h : getColumn e rv pos b = Except.ok (some col)) :
    col.position = pos + 1 := by
  simp only [getColumn] at h
  split at h
  · exact absurd h (by simp)
  · split at h
    · split at h
      · exact absurd h (by simp)
      · split at h
        · simp only [Except.ok.injEq, Option.some.injEq] at h
          subst h
          rfl
        · exact absurd h (by simp)
    · simp only [Except.ok.injEq, Option.some.injEq] at h
      subst h
      rfl

/-- A record emitted by an iteration at `position` carries the 1-based
position `position + 1`. -/
theorem columnOutcome_position {e : Engine} {rv : RegionVal} {pos : ℤ}
    {ctg : String} {bases : Option CompiledPos} {col : RTResult}
    (h : columnOutcome e rv pos ctg bases = Except.ok (some col)) :
    col.position = pos + 1 := by
  simp only [columnOutcome] at h
  split at h
  · exact absurd h (by simp)
  · split at h
    · exact absurd h (by simp)
    · split at h
      · exact absurd h (by simp)
      · exact getColumn_position h

/-- The stop-bound test never raises on a genuine region object. -/
theorem regionStopTest_ok (r : Region) (pos : ℤ) :
    ∃ b, regionStopTest (RegionVal.reg r) pos = Except.ok b := by
  cases h : r.stop with
  | none => exact ⟨false, by simp [regionStopTest, h]⟩
  | some s =>
      exact ⟨decide (s ≠ 0) && decide (s ≤ pos), by simp only [regionStopTest, h]⟩

/-- The window-and-queue invariant the scan loop maintains: before the
pointer's first assignment the window is empty; afterwards every open
window position and every unconsumed batch start lies strictly beyond the
pointer. -/
def windowInv : Option ℤ → Window → List Batch → Prop
  | none, w, _ => w = []
  | some p, w, queue =>
      (∀ k ∈ w.map Prod.fst, p < k) ∧ ∀ b ∈ queue, p < batchStart b

/-- Lower bound on emitted 1-based positions relative to the pointer state
at loop entry. -/
def posBound : Option ℤ → ℤ → Prop
  | none, _ => True
  | some p, q => p + 1 < q

/-- Unfolding: with the source exhausted and the window empty the loop
exits through its guard at once, emitting nothing. -/
theorem analyzeLoop_done (e : Engine) (rv : RegionVal) (mc : String) (n : ℕ)
    (rest : List Batch) (posOpt : Option ℤ) (ctg : String) :
    analyzeLoop e rv mc (n + 1) none rest [] posOpt ctg = ([], ScanExit.done) := rfl

/-- Unfolding: on an empty window with a pending batch, the pointer jumps
to the batch start, the batch is ingested into the empty window, the start
position is evicted, and the iteration dispatches on the column outcome. -/
theorem analyzeLoop_jump (e : Engine) (r : Region) (mc : String) (n : ℕ)
    (rd : RTRead) (tl : List RTRead) (rest : List Batch) (posOpt : Option ℤ)
    (ctg : String) :
    analyzeLoop e (RegionVal.reg r) mc (n + 1) (some (rd :: tl)) rest [] posOpt ctg =
      match regionStopTest (RegionVal.reg r) rd.reference_start with
      | Except.error _ => ([], ScanExit.errored)
      | Except.ok true => ([], ScanExit.done)
      | Except.ok false =>
          dispatchOutcome
            (columnOutcome e (RegionVal.reg r) rd.reference_start mc
              (windowPop (addReads e mc [] (rd :: tl)) rd.reference_start).1)
            (analyzeLoop e (RegionVal.reg r) mc n rest.head? rest.tail
              (windowPop (addReads e mc [] (rd :: tl)) rd.reference_start).2
              (some rd.reference_start) mc) := by
  simp [analyzeLoop]

/-- Unfolding: on a non-empty window with the source exhausted, the
pointer advances by one, nothing is ingested, and the advanced position is
evicted. -/
theorem analyzeLoop_advance_none (e : Engine) (r : Region) (mc : String)
    (n : ℕ) (rest : List Batch) (kv : ℤ × CompiledPos) (wt : Window) (p : ℤ)
    (ctg : String) :
    analyzeLoop e (RegionVal.reg r) mc (n + 1) none rest (kv :: wt) (some p) ctg =
      match regionStopTest (RegionVal.reg r) (p + 1) with
      | Except.error _ => ([], ScanExit.errored)
      | Except.ok true => ([], ScanExit.done)
      | Except.ok false =>
          dispatchOutcome
            (columnOutcome e (RegionVal.reg r) (p + 1) ctg
              (windowPop (kv :: wt) (p + 1)).1)
            (analyzeLoop e (RegionVal.reg r) mc n none rest
              (windowPop (kv :: wt) (p + 1)).2 (some (p + 1)) ctg) := rfl

/-- Unfolding: on a non-empty window with a pending batch starting exactly
at the advanced position, the batch is ingested before eviction. -/
theorem analyzeLoop_advance_ingest (e : Engine) (r : Region) (mc : String)
    (n : ℕ) (rd : RTRead) (tl : List RTRead) (rest : List Batch)
    (kv : ℤ × CompiledPos) (wt : Window) (p : ℤ) (ctg : String)
    (hd : decide (rd.reference_start = p + 1) = true) :
    analyzeLoop e (RegionVal.reg r) mc (n + 1) (some (rd :: tl)) rest (kv :: wt)
        (some p) ctg =
      match regionStopTest (RegionVal.reg r) (p + 1) with
      | Except.error _ => ([], ScanExit.errored)
      | Except.ok true => ([], ScanExit.done)
      | Except.ok false =>
          dispatchOutcome
            (columnOutcome e (RegionVal.reg r) (p + 1) ctg
              (windowPop (addReads e ctg (kv :: wt) (rd :: tl)) (p + 1)).1)
            (analyzeLoop e (RegionVal.reg r) mc n rest.head? rest.tail
              (windowPop (addReads e ctg (kv :: wt) (rd :: tl)) (p + 1)).2
              (some (p + 1)) ctg) := by
  simp [analyzeLoop, hd]

/-- Unfolding: on a non-empty window with a pending batch starting
elsewhere, the batch is kept pending and only the eviction happens. -/
theorem analyzeLoop_advance_skip (e : Engine) (r : Region) (mc : String)
    (n : ℕ) (rd : RTRead) (tl : List RTRead) (rest : List Batch)
    (kv : ℤ × CompiledPos) (wt : Window) (p : ℤ) (ctg : String)
    (hd : decide (rd.reference_start = p + 1) = false) :
    analyzeLoop e (RegionVal.reg r) mc (n + 1) (some (rd :: tl)) rest (kv :: wt)
        (some p) ctg =
      match regionStopTest (RegionVal.reg r) (p + 1) with
      | Except.error _ => ([], ScanExit.errored)
      | Except.ok true => ([], ScanExit.done)
      | Except.ok false =>
          dispatchOutcome
            (columnOutcome e (RegionVal.reg r) (p + 1) ctg
              (windowPop (kv :: wt) (p + 1)).1)
            (analyzeLoop e (RegionVal.reg r) mc n (some (rd :: tl)) rest
              (windowPop (kv :: wt) (p + 1)).2 (some (p + 1)) ctg) := by
  simp [analyzeLoop, hd]

/-- Ordering through one dispatch: if the tail of the scan is strictly
increasing with every position beyond `pos + 1`, then so is the dispatched
result (with every position beyond the entry bound), since an emitted
record at `pos` carries position `pos + 1` and an abort emits nothing. -/
theorem dispatchOutcome_spec {posOpt : Option ℤ} {pos : ℤ}
    (x : Except Unit (Option RTResult)) (tail : List RTResult × ScanExit)
    (hlow : ∀ q : ℤ, pos + 1 ≤ q → posBound posOpt q)
    (hpos : ∀ col, x = Except.ok (some col) → col.position = pos + 1)
    (hT1 : List.Pairwise (fun a b => a < b) (tail.1.map RTResult.position))
    (hT2 : ∀ q ∈ tail.1.map RTResult.position, posBound (some pos) q) :
    List.Pairwise (fun a b => a < b)
      ((dispatchOutcome x tail).1.map RTResult.position) ∧
    ∀ q ∈ (dispatchOutcome x tail).1.map RTResult.position, posBound posOpt q := by
  cases x with
  | error err =>
      exact ⟨List.Pairwise.nil, fun q hq => absurd hq (List.not_mem_nil q)⟩
  | ok oc =>
      cases oc with
      | none =>
          refine ⟨hT1, fun q hq => ?_⟩
          have hb := hT2 q hq
          simp only [posBound] at hb
          exact hlow q (by omega)
      | some col =>
          have hcp : col.position = pos + 1 := hpos col rfl
          constructor
          · simp only [dispatchOutcome, List.map_cons]
            refine List.pairwise_cons.mpr ⟨fun y hy => ?_, hT1⟩
            have hb := hT2 y hy
            simp only [posBound] at hb
            omega
          · intro q hq
            simp only [dispatchOutcome, List.map_cons, List.mem_cons] at hq
            rcases hq with hq | hq
            · exact hlow q (by omega)
            · have hb := hT2 q hq
              simp only [posBound] at hb
              exact hlow q (by omega)

/-- Ordering invariant of the scan loop: with well-formed batches (each
non-empty, all reads sharing the batch start), batch starts strictly
sorted, and the window invariant at entry, the 1-based positions of the
records the loop emits are strictly increasing example by example, and all
lie beyond the entry pointer. -/
theorem analyzeLoop_strict (e : Engine) (r : Region) (mc : String) :
    ∀ (fuel : ℕ) (pending : Option Batch) (rest : List Batch) (w : Window)
      (posOpt : Option ℤ) (ctg : String),
      (∀ b ∈ pendList pending rest, b ≠ [] ∧
        ∀ rd ∈ b, rd.reference_start = batchStart b) →
      List.Pairwise (fun a b => a < b) ((pendList pending rest).map batchStart) →
      windowInv posOpt w (pendList pending rest) →
      List.Pairwise (fun a b => a < b)
        ((analyzeLoop e (RegionVal.reg r) mc fuel pending rest w posOpt ctg).1.map
          RTResult.position) ∧
      ∀ q ∈ (analyzeLoop e (RegionVal.reg r) mc fuel pending rest w posOpt ctg).1.map
          RTResult.position, posBound posOpt q := by
  intro fuel
  induction fuel with
  | zero =>
      intro pending rest w posOpt ctg _ _ _
      exact ⟨List.Pairwise.nil, fun q hq => absurd hq (List.not_mem_nil q)⟩
  | succ n ih =>
      intro pending rest w posOpt ctg hwf hsort hwin
      cases w with
      | nil =>
          cases pending with
          | none =>
              rw [analyzeLoop_done]
              exact ⟨List.Pairwise.nil, fun q hq => absurd hq (List.not_mem_nil q)⟩
          | some batch =>
              obtain ⟨hbne, hbstart⟩ := hwf batch (by simp [pendList])
              cases batch with
              | nil => exact absurd rfl hbne
              | cons rd tl =>
                  simp only [pendList] at hwf hsort hwin
                  have hpc := List.pairwise_cons.mp hsort
                  have hwf_rest : ∀ b ∈ pendList rest.head? rest.tail, b ≠ [] ∧
                      ∀ rd0 ∈ b, rd0.reference_start = batchStart b := by
                    rw [pendList_head_tail]
                    intro b hb
                    exact hwf b (List.mem_cons_of_mem _ hb)
                  have hsort_rest : List.Pairwise (fun a b => a < b)
                      ((pendList rest.head? rest.tail).map batchStart) := by
                    rw [pendList_head_tail]
                    exact hpc.2
                  have hwin_new : windowInv (some rd.reference_start)
                      (windowPop (addReads e mc [] (rd :: tl)) rd.reference_start).2
                      (pendList rest.head? rest.tail) := by
                    rw [pendList_head_tail]
                    constructor
                    · intro k hk
                      obtain ⟨hmem, hne⟩ := windowPop_keys hk
                      rcases addReads_keys (rd :: tl) [] k hbstart hmem with h1 | h1
                      · simp at h1
                      · have hbs : batchStart (rd :: tl) = rd.reference_start := rfl
                        rw [hbs] at h1
                        omega
                    · intro b hb
                      exact hpc.1 (batchStart b) (List.mem_map_of_mem batchStart hb)
                  have hrec := ih rest.head? rest.tail
                      (windowPop (addReads e mc [] (rd :: tl)) rd.reference_start).2
                      (some rd.reference_start) mc hwf_rest hsort_rest hwin_new
                  have hlow : ∀ q : ℤ, rd.reference_start + 1 ≤ q →
                      posBound posOpt q := by
                    cases posOpt with
                    | none => intro q _; trivial
                    | some p =>
                        intro q hq
                        have hp : p < batchStart (rd :: tl) :=
                          hwin.2 (rd :: tl) (List.mem_cons_self _ _)
                        have hbs : batchStart (rd :: tl) = rd.reference_start := rfl
                        rw [hbs] at hp
                        simp only [posBound]
                        omega
                  rw [analyzeLoop_jump]
                  obtain ⟨bstop, hstop⟩ := regionStopTest_ok r rd.reference_start
                  rw [hstop]
                  cases bstop with
                  | true =>
                      exact ⟨List.Pairwise.nil, fun q hq => absurd hq (List.not_mem_nil q)⟩
                  | false =>
                      exact dispatchOutcome_spec _ _ hlow
                        (fun col hcol => columnOutcome_position hcol) hrec.1 hrec.2
      | cons kv wt =>
          cases posOpt with
          | none => simp [windowInv] at hwin
          | some p =>
              obtain ⟨hkeys, hqueue⟩ := hwin
              have hlow : ∀ q : ℤ, (p + 1) + 1 ≤ q → posBound (some p) q := by
                intro q hq
                simp only [posBound]
                omega
              cases pending with
              | none =>
                  have hwf2 : ∀ b ∈ pendList (none : Option Batch) rest, b ≠ [] ∧
                      ∀ rd0 ∈ b, rd0.reference_start = batchStart b := by
                    simp [pendList]
                  have hsort2 : List.Pairwise (fun a b => a < b)
                      ((pendList (none : Option Batch) rest).map batchStart) := by
                    simp [pendList]
                  have hwin2 : windowInv (some (p + 1))
                      (windowPop (kv :: wt) (p + 1)).2
                      (pendList (none : Option Batch) rest) := by
                    constructor
                    · intro k hk
                      obtain ⟨hmem, hne⟩ := windowPop_keys hk
                      have := hkeys k hmem
                      omega
                    · simp [pendList]
                  have hrec := ih none rest (windowPop (kv :: wt) (p + 1)).2
                      (some (p + 1)) ctg hwf2 hsort2 hwin2
                  rw [analyzeLoop_advance_none]
                  obtain ⟨bstop, hstop⟩ := regionStopTest_ok r (p + 1)
                  rw [hstop]
                  cases bstop with
                  | true =>
                      exact ⟨List.Pairwise.nil, fun q hq => absurd hq (List.not_mem_nil q)⟩
                  | false =>
                      exact dispatchOutcome_spec _ _ hlow
                        (fun col hcol => columnOutcome_position hcol) hrec.1 hrec.2
              | some batch =>
                  obtain ⟨hbne, hbstart⟩ := hwf batch (by simp [pendList])
                  cases batch with
                  | nil => exact absurd rfl hbne
                  | cons rd tl =>
                      simp only [pendList] at hwf hsort hqueue
                      have hpc := List.pairwise_cons.mp hsort
                      have hbs : batchStart (rd :: tl) = rd.reference_start := rfl
                      by_cases hdq : rd.reference_start = p + 1
                      · have hd : decide (rd.reference_start = p + 1) = true := by
                          simp [hdq]
                        have hwf2 : ∀ b ∈ pendList rest.head? rest.tail, b ≠ [] ∧
                            ∀ rd0 ∈ b, rd0.reference_start = batchStart b := by
                          rw [pendList_head_tail]
                          intro b hb
                          exact hwf b (List.mem_cons_of_mem _ hb)
                        have hsort2 : List.Pairwise (fun a b => a < b)
                            ((pendList rest.head? rest.tail).map batchStart) := by
                          rw [pendList_head_tail]
                          exact hpc.2
                        have hwin2 : windowInv (some (p + 1))
                            (windowPop (addReads e ctg (kv :: wt) (rd :: tl)) (p + 1)).2
                            (pendList rest.head? rest.tail) := by
                          rw [pendList_head_tail]
                          constructor
                          · intro k hk
                            obtain ⟨hmem, hne⟩ := windowPop_keys hk
                            rcases addReads_keys (rd :: tl) (kv :: wt) k hbstart hmem
                                with h1 | h1
                            · have := hkeys k h1
                              omega
                            · rw [hbs, hdq] at h1
                              omega
                          · intro b hb
                            have := hpc.1 (batchStart b)
                              (List.mem_map_of_mem batchStart hb)
                            rw [hbs, hdq] at this
                            exact this
                        have hrec := ih rest.head? rest.tail
                            (windowPop (addReads e ctg (kv :: wt) (rd :: tl)) (p + 1)).2
                            (some (p + 1)) ctg hwf2 hsort2 hwin2
                        rw [analyzeLoop_advance_ingest e r mc n rd tl rest kv wt p ctg hd]
                        obtain ⟨bstop, hstop⟩ := regionStopTest_ok r (p + 1)
                        rw [hstop]
                        cases bstop with
                        | true =>
                            exact ⟨List.Pairwise.nil,
                              fun q hq => absurd hq (List.not_mem_nil q)⟩
                        | false =>
                            exact dispatchOutcome_spec _ _ hlow
                              (fun col hcol => columnOutcome_position hcol) hrec.1 hrec.2
                      · have hd : decide (rd.reference_start = p + 1) = false := by
                          simp [hdq]
                        have hwf2 : ∀ b ∈ pendList (some (rd :: tl)) rest, b ≠ [] ∧
                            ∀ rd0 ∈ b, rd0.reference_start = batchStart b := hwf
                        have hsort2 : List.Pairwise (fun a b => a < b)
                            ((pendList (some (rd :: tl)) rest).map batchStart) := hsort
                        have hwin2 : windowInv (some (p + 1))
                            (windowPop (kv :: wt) (p + 1)).2
                            (pendList (some (rd :: tl)) rest) := by
                          constructor
                          · intro k hk
                            obtain ⟨hmem, hne⟩ := windowPop_keys hk
                            have := hkeys k hmem
                            omega
                          · intro b hb
                            simp only [pendList] at hb
                            rcases List.mem_cons.mp hb with hb | hb
                            · subst hb
                              have h1 := hqueue (rd :: tl) (List.mem_cons_self _ _)
                              rw [hbs] at h1 ⊢
                              omega
                            · have h1 := hpc.1 (batchStart b)
                                (List.mem_map_of_mem batchStart hb)
                              have h2 := hqueue (rd :: tl) (List.mem_cons_self _ _)
                              rw [hbs] at h1 h2
                              omega
                        have hrec := ih (some (rd :: tl)) rest
                            (windowPop (kv :: wt) (p + 1)).2
                            (some (p + 1)) ctg hwf2 hsort2 hwin2
                        rw [analyzeLoop_advance_skip e r mc n rd tl rest kv wt p ctg hd]
                        obtain ⟨bstop, hstop⟩ := regionStopTest_ok r (p + 1)
                        rw [hstop]
                        cases bstop with
                        | true =>
                            exact ⟨List.Pairwise.nil,
                              fun q hq => absurd hq (List.not_mem_nil q)⟩
                        | false =>
                            exact dispatchOutcome_spec _ _ hlow
                              (fun col hcol => columnOutcome_position hcol) hrec.1 hrec.2

/-- C6: for a sorted single-contig read source (well-formed non-empty
batches with strictly increasing start positions) and any bounding region,
the 1-based positions of the records `analyze` emits are strictly
increasing; and from any state in which the read source is exhausted and
the accumulator window is empty, the scan loop exits at once through its
guard, yielding no further records. -/
theorem analyze_positions_strictly_increasing
    (e : Engine) (r : Region) (mgr : AlignmentManager) (fuel : ℕ)
    (hwf : ∀ b ∈ mgr.batches, b ≠ [] ∧
      ∀ rd ∈ b, rd.reference_start = batchStart b)
    (hsorted : List.Pairwise (fun a b => a < b) (mgr.batches.map batchStart)) :
    List.Pairwise (fun a b => a < b)
      ((analyze e mgr (some r) fuel).1.map RTResult.position) ∧
    ∀ (f : ℕ) (rest : List Batch) (posOpt : Option ℤ) (ctg : String),
      analyzeLoop e (RegionVal.reg r) mgr.contig (f + 1) none rest [] posOpt ctg =
        ([], ScanExit.done) := by
  constructor
  · have hunf : analyze e mgr (some r) fuel =
        analyzeLoop e (RegionVal.reg r) mgr.contig fuel mgr.batches.head?
          mgr.batches.tail [] none "" := rfl
    rw [hunf]
    refine (analyzeLoop_strict e r mgr.contig fuel mgr.batches.head?
        mgr.batches.tail [] none "" ?_ ?_ ?_).1
    · rw [pendList_head_tail]
      exact hwf
    · rw [pendList_head_tail]
      exact hsorted
    · rfl
  · intro f rest posOpt ctg
    rfl

/-- A one-batch single-contig read source for the concrete scan. -/
def demoMgr : AlignmentManager := { contig := "chr1", batches := [demoBatch] }

/-- An unbounded region on the demonstration contig. -/
def demoRegion : Region := { contig := "chr1", start := none, stop := none }

/-- C6 (witness): the ordering theorem applied to a concrete sorted
one-batch source under the default configuration. -/
theorem analyze_positions_strictly_increasing_witness :
    ((∀ b ∈ demoMgr.batches, b ≠ [] ∧
        ∀ rd ∈ b, rd.reference_start = batchStart b) ∧
      List.Pairwise (fun a b => a < b) (demoMgr.batches.map batchStart)) ∧
    (List.Pairwise (fun a b => a < b)
        ((analyze defaultEngine demoMgr (some demoRegion) 5).1.map RTResult.position) ∧
      ∀ (f : ℕ) (rest : List Batch) (posOpt : Option ℤ) (ctg : String),
        analyzeLoop defaultEngine (RegionVal.reg demoRegion) demoMgr.contig (f + 1)
          none rest [] posOpt ctg = ([], ScanExit.done)) :=
  ⟨⟨by decide, by decide⟩,
    analyze_positions_strictly_increasing defaultEngine demoRegion demoMgr 5
      (by decide) (by decide)⟩
